import Mathlib

/-!
Verification of the two C programs of this repository:

* `c_examples/peterson_algorithm.c` — two threads running `peterson_process`
  guard a non-atomic three-step increment of a shared `counter` with
  Peterson's mutual-exclusion protocol (`flag[2]`, `turn`, all accesses
  sequentially consistent).
* `c_examples/race_condition_example.c` — the same workload with no
  protocol at all (`increment_counter`).

Both programs are embedded as interleaving transition systems: each C
statement (in particular each shared-memory load and store, which the
source performs with `memory_order_seq_cst` atomics) is one atomic step,
and an execution is any interleaving of steps of the two threads.  The
loop bound `ITERATIONS` is kept as a parameter `n` of the step function so
that theorems quantify over the configured constant; the source configures
`ITERATIONS = 100000`.
-/

namespace Peterson

/-- The configured `#define ITERATIONS 100000` of `peterson_algorithm.c`. -/
def ITERATIONS : Nat := 100000

/-- Program positions inside the body of `peterson_process`.  One position
per C statement; the two loads of the entry-wait condition
`flag[other] && turn == other` are separate positions (`waitFlag`,
`waitTurn`) because they are two distinct seq-cst atomic loads. -/
inductive PC where
  /-- the `for` loop test `i < ITERATIONS/2` -/
  | loopHead
  /-- the store `atomic_store_explicit(&flag[id], true, ...)` -/
  | setFlag
  /-- the store `atomic_store_explicit(&turn, other, ...)` -/
  | setTurn
  /-- load `flag[other]` of the `while` condition -/
  | waitFlag
  /-- load `turn` of the `while` condition (only reached when `flag[other]` read true) -/
  | waitTurn
  /-- the read `long temp = counter;` -/
  | readCtr
  /-- the local step `temp = temp + 1;` -/
  | incTemp
  /-- the write `counter = temp;` -/
  | writeCtr
  /-- the store `atomic_store_explicit(&flag[id], false, ...)` -/
  | clearFlag
  /-- the `for` loop increment `i++` -/
  | incI
  /-- the loop has exited; `return NULL` -/
  | done
deriving DecidableEq

/-- Thread-local state of one `peterson_process` thread: its argument
`id`, the derived `other = 1 - id`, the program position, the loop
counter `i`, and the local `temp`. -/
structure TState where
  id : Nat
  other : Nat
  pc : PC
  i : Nat
  temp : Nat
deriving DecidableEq

/-- The shared globals of `peterson_algorithm.c`:
`_Atomic bool flag[2] = {false,false}`, `_Atomic int turn = 0`,
`long counter = 0`. -/
structure Shared where
  flag0 : Bool
  flag1 : Bool
  turn : Nat
  counter : Nat
deriving DecidableEq

/-- Read `flag[j]`. -/
def readFlag (sh : Shared) (j : Nat) : Bool :=
  if j = 0 then sh.flag0 else sh.flag1

/-- Store `flag[j] = b`. -/
def writeFlag (sh : Shared) (j : Nat) (b : Bool) : Shared :=
  if j = 0 then { sh with flag0 := b } else { sh with flag1 := b }

/-- One atomic step of `peterson_process` (loop bound `ITERATIONS = n`):
given the shared state and the thread state, produce the new shared and
thread state.  A `done` thread stutters. -/
def peterson_process_step (n : Nat) (sh : Shared) (t : TState) : Shared × TState :=
  match t.pc with
  | .loopHead =>
      if t.i < n / 2 then (sh, { t with pc := .setFlag }) else (sh, { t with pc := .done })
  | .setFlag => (writeFlag sh t.id true, { t with pc := .setTurn })
  | .setTurn => ({ sh with turn := t.other }, { t with pc := .waitFlag })
  | .waitFlag =>
      if readFlag sh t.other then (sh, { t with pc := .waitTurn })
      else (sh, { t with pc := .readCtr })
  | .waitTurn =>
      if sh.turn = t.other then (sh, { t with pc := .waitFlag })
      else (sh, { t with pc := .readCtr })
  | .readCtr => (sh, { t with temp := sh.counter, pc := .incTemp })
  | .incTemp => (sh, { t with temp := t.temp + 1, pc := .writeCtr })
  | .writeCtr => ({ sh with counter := t.temp }, { t with pc := .clearFlag })
  | .clearFlag => (writeFlag sh t.id false, { t with pc := .incI })
  | .incI => (sh, { t with i := t.i + 1, pc := .loopHead })
  | .done => (sh, t)

/-- A configuration of the whole protected program: the shared globals and
the two threads spawned by `main`. -/
structure Config where
  sh : Shared
  th0 : TState
  th1 : TState
deriving DecidableEq

/-- Thread 0 takes one step. -/
def step0 (n : Nat) (c : Config) : Config :=
  { sh := (peterson_process_step n c.sh c.th0).1
    th0 := (peterson_process_step n c.sh c.th0).2
    th1 := c.th1 }

/-- Thread 1 takes one step. -/
def step1 (n : Nat) (c : Config) : Config :=
  { sh := (peterson_process_step n c.sh c.th1).1
    th0 := c.th0
    th1 := (peterson_process_step n c.sh c.th1).2 }

/-- The interleaving step relation: either thread moves. -/
def Step (n : Nat) (c c' : Config) : Prop :=
  c' = step0 n c ∨ c' = step1 n c

/-- The thread state `main` spawns `peterson_process` with: argument `id`,
at the top of the loop, `i` (and `temp`) not yet holding meaningful values
(initialised 0 here; `i` is set to 0 by the `for` init). -/
def initTState (id : Nat) : TState :=
  { id := id, other := 1 - id, pc := .loopHead, i := 0, temp := 0 }

/-- The initial configuration of `main`: globals at their initialisers
(`flag = {false,false}`, `turn = 0`, `counter = 0`), thread 0 spawned with
`&id0` (value 0) and thread 1 with `&id1` (value 1). -/
def init : Config :=
  { sh := { flag0 := false, flag1 := false, turn := 0, counter := 0 }
    th0 := initTState 0
    th1 := initTState 1 }

/-- Configurations reachable in some interleaved execution. -/
def Reachable (n : Nat) (c : Config) : Prop :=
  Relation.ReflTransGen (Step n) init c

/-- The thread has executed `flag[id] = true` of the entry section and has
not yet executed `flag[id] = false` of the exit section. -/
def flagRegion : PC → Bool
  | .setTurn | .waitFlag | .waitTurn | .readCtr | .incTemp | .writeCtr | .clearFlag => true
  | _ => false

/-- The thread has passed its entry-wait condition and has not yet
completed the exit store: it is inside the critical section. -/
def inCS : PC → Bool
  | .readCtr | .incTemp | .writeCtr | .clearFlag => true
  | _ => false

/-- The thread is inside the entry-wait (busy-wait) loop. -/
def waiting : PC → Bool
  | .waitFlag | .waitTurn => true
  | _ => false

/-- The thread has performed the `counter = temp` store of the current
iteration but has not yet executed the loop increment `i++`. -/
def wrotePending : PC → Bool
  | .clearFlag | .incI => true
  | _ => false

/-- The thread is inside the loop body (past the loop test, before `i++`
completes). -/
def inBody : PC → Bool
  | .loopHead | .done => false
  | _ => true

/-- Number of `counter = temp` stores thread `t` has performed so far. -/
def wcount (t : TState) : Nat :=
  t.i + (if wrotePending t.pc then 1 else 0)

/-- The inductive invariant of the protected program.  It pins the thread
ids, ties each `flag` to its owner's position, bounds `turn`, states
mutual exclusion together with the turn-based argument that sustains it,
and accounts for the shared counter. -/
structure Inv (n : Nat) (c : Config) : Prop where
  id0 : c.th0.id = 0
  other0 : c.th0.other = 1
  id1 : c.th1.id = 1
  other1 : c.th1.other = 0
  flag0 : c.sh.flag0 = flagRegion c.th0.pc
  flag1 : c.sh.flag1 = flagRegion c.th1.pc
  turn01 : c.sh.turn = 0 ∨ c.sh.turn = 1
  mutex : ¬(inCS c.th0.pc ∧ inCS c.th1.pc)
  turn0 : inCS c.th0.pc → waiting c.th1.pc → c.sh.turn = 0
  turn1 : inCS c.th1.pc → waiting c.th0.pc → c.sh.turn = 1
  ctr : c.sh.counter = wcount c.th0 + wcount c.th1
  temp0read : c.th0.pc = .incTemp → c.th0.temp = c.sh.counter
  temp0inc : c.th0.pc = .writeCtr → c.th0.temp = c.sh.counter + 1
  temp1read : c.th1.pc = .incTemp → c.th1.temp = c.sh.counter
  temp1inc : c.th1.pc = .writeCtr → c.th1.temp = c.sh.counter + 1
  ibound0 : c.th0.i ≤ n / 2
  ibody0 : inBody c.th0.pc → c.th0.i < n / 2
  idone0 : c.th0.pc = .done → c.th0.i = n / 2
  ibound1 : c.th1.i ≤ n / 2
  ibody1 : inBody c.th1.pc → c.th1.i < n / 2
  idone1 : c.th1.pc = .done → c.th1.i = n / 2

/-- The console verdict printed by the protected main: the success
message when `counter == ITERATIONS`, otherwise the unexpected-result
message carrying the observed value. -/
inductive Verdict where
  /-- the branch printing MUTUAL EXCLUSION GUARANTEED - No lost updates -/
  | mutualExclusionGuaranteed
  /-- the branch printing Unexpected result with the observed counter -/
  | unexpectedResult (v : Nat)
deriving DecidableEq

/-- The final `if (counter == ITERATIONS)` of the protected main. -/
def mainVerdict (counter : Nat) : Verdict :=
  if counter = ITERATIONS then .mutualExclusionGuaranteed else .unexpectedResult counter

/-- A terminated run with iteration bound 0: each thread takes one step
(`0 < 0/2` fails) and finishes immediately. -/
def doneConfig : Config := step1 0 (step0 0 init)

/-- Three consecutive steps of thread 0 from the start (loop test, store
of `flag[0]`, store of `turn`) bring it to its entry-wait loop. -/
def wait0Config : Config := step0 ITERATIONS (step0 ITERATIONS (step0 ITERATIONS init))

end Peterson

namespace Racy

/-- The configured `#define ITERATIONS 100000` of `race_condition_example.c`. -/
def ITERATIONS : Nat := 100000

/-- Program positions inside the body of `increment_counter`. -/
inductive PC where
  /-- the `for` loop test `i < ITERATIONS/2` -/
  | loopHead
  /-- the read `long temp = counter;` -/
  | readCtr
  /-- the injected delay `usleep(1)`, no shared-memory effect -/
  | sleep
  /-- the local step `temp = temp + 1;` -/
  | incTemp
  /-- the write `counter = temp;` -/
  | writeCtr
  /-- the `for` loop increment `i++` -/
  | incI
  /-- the loop has exited; `return NULL` -/
  | done
deriving DecidableEq

/-- Thread-local state of one `increment_counter` thread (the argument is
`NULL` and unused, so there is no id). -/
structure TState where
  pc : PC
  i : Nat
  temp : Nat
deriving DecidableEq

/-- A configuration of the unsynchronized program: the shared
`long counter = 0` and the two threads spawned by `main`. -/
structure Config where
  counter : Nat
  th0 : TState
  th1 : TState
deriving DecidableEq

/-- One atomic step of `increment_counter` (loop bound `ITERATIONS = n`). -/
def increment_counter_step (n : Nat) (ctr : Nat) (t : TState) : Nat × TState :=
  match t.pc with
  | .loopHead =>
      if t.i < n / 2 then (ctr, { t with pc := .readCtr }) else (ctr, { t with pc := .done })
  | .readCtr => (ctr, { t with temp := ctr, pc := .sleep })
  | .sleep => (ctr, { t with pc := .incTemp })
  | .incTemp => (ctr, { t with temp := t.temp + 1, pc := .writeCtr })
  | .writeCtr => (t.temp, { t with pc := .incI })
  | .incI => (ctr, { t with i := t.i + 1, pc := .loopHead })
  | .done => (ctr, t)

/-- Thread 0 takes one step. -/
def step0 (n : Nat) (c : Config) : Config :=
  { counter := (increment_counter_step n c.counter c.th0).1
    th0 := (increment_counter_step n c.counter c.th0).2
    th1 := c.th1 }

/-- Thread 1 takes one step. -/
def step1 (n : Nat) (c : Config) : Config :=
  { counter := (increment_counter_step n c.counter c.th1).1
    th0 := c.th0
    th1 := (increment_counter_step n c.counter c.th1).2 }

/-- The interleaving step relation: either thread moves. -/
def Step (n : Nat) (c c' : Config) : Prop :=
  c' = step0 n c ∨ c' = step1 n c

/-- The initial configuration: `counter = 0`, both threads at the top of
their loop. -/
def init : Config :=
  { counter := 0
    th0 := { pc := .loopHead, i := 0, temp := 0 }
    th1 := { pc := .loopHead, i := 0, temp := 0 } }

/-- Configurations reachable in some interleaved execution of the
unsynchronized program. -/
def Reachable (n : Nat) (c : Config) : Prop :=
  Relation.ReflTransGen (Step n) init c

/-- The thread has performed the `counter = temp` store of the current
iteration but not yet the loop increment `i++`. -/
def pendingW : PC → Bool
  | .incI => true
  | _ => false

/-- The thread is inside the loop body. -/
def inBody : PC → Bool
  | .loopHead | .done => false
  | _ => true

/-- The thread holds in `temp` a value read from `counter`, not yet
incremented. -/
def holdsTemp : PC → Bool
  | .sleep | .incTemp => true
  | _ => false

/-- Number of `counter = temp` stores the thread has performed so far. -/
def wcount (t : TState) : Nat :=
  t.i + (if pendingW t.pc then 1 else 0)

/-- Inductive invariant of the unsynchronized program: the counter never
exceeds the number of writes performed, because every write stores one
more than some previously read counter value. -/
structure Inv (n : Nat) (c : Config) : Prop where
  ctr : c.counter ≤ wcount c.th0 + wcount c.th1
  temp0a : holdsTemp c.th0.pc = true → c.th0.temp ≤ wcount c.th0 + wcount c.th1
  temp0b : c.th0.pc = .writeCtr → c.th0.temp ≤ wcount c.th0 + wcount c.th1 + 1
  temp1a : holdsTemp c.th1.pc = true → c.th1.temp ≤ wcount c.th0 + wcount c.th1
  temp1b : c.th1.pc = .writeCtr → c.th1.temp ≤ wcount c.th0 + wcount c.th1 + 1
  ib0 : c.th0.i ≤ n / 2
  iby0 : inBody c.th0.pc = true → c.th0.i < n / 2
  ib1 : c.th1.i ≤ n / 2
  iby1 : inBody c.th1.pc = true → c.th1.i < n / 2

/-- The console verdict printed by the baseline main: the lost-update
report when `counter < ITERATIONS`, otherwise the no-race-this-run
message. -/
inductive Verdict where
  /-- the branch printing RACE CONDITION DETECTED with the lost count -/
  | raceDetected (lost : Nat)
  /-- the branch printing No race detected this run -/
  | noRaceThisRun
deriving DecidableEq

/-- The final `if (counter < ITERATIONS)` of the baseline main, reporting
`ITERATIONS - counter` lost updates. -/
def mainVerdict (counter : Nat) : Verdict :=
  if counter < ITERATIONS then .raceDetected (ITERATIONS - counter) else .noRaceThisRun

end Racy

namespace Peterson

/-- The initial configuration satisfies the invariant. -/
theorem inv_init (n : Nat) : Inv n init := by
  constructor <;> simp [init, initTState, wcount, wrotePending, inCS, waiting, flagRegion, inBody]

/-- A position whose flag is down is neither in the critical section nor
in the entry-wait loop. -/
theorem flagRegion_false {p : PC} (h : flagRegion p = false) :
    inCS p = false ∧ waiting p = false := by
  cases p <;> simp_all [flagRegion, inCS, waiting]

set_option maxHeartbeats 4000000 in
/-- Thread 0 taking a step preserves the invariant. -/
theorem inv_step0 (n : Nat) (c : Config) (hInv : Inv n c) : Inv n (step0 n c) := by
  obtain ⟨id0, other0, id1, other1, hf0, hf1, turn01, mutex, turn0, turn1, hctr,
    t0r, t0i, t1r, t1i, ib0, iby0, idn0, ib1, iby1, idn1⟩ := hInv
  cases hpc : c.th0.pc
  case loopHead =>
    simp only [step0, peterson_process_step, hpc]
    split
    · constructor <;> intros <;>
        simp_all [flagRegion, inCS, waiting, wrotePending, inBody, wcount] <;> omega
    · constructor <;> intros <;>
        simp_all [flagRegion, inCS, waiting, wrotePending, inBody, wcount] <;> omega
  case setFlag =>
    simp only [step0, peterson_process_step, hpc, id0]
    constructor <;> intros <;>
      simp_all [writeFlag, flagRegion, inCS, waiting, wrotePending, inBody, wcount] <;> omega
  case setTurn =>
    simp only [step0, peterson_process_step, hpc, other0]
    constructor <;> intros <;>
      simp_all [flagRegion, inCS, waiting, wrotePending, inBody, wcount] <;> omega
  case waitFlag =>
    simp only [step0, peterson_process_step, hpc, other0, readFlag]
    rcases hft : c.sh.flag1 with _ | _
    · obtain ⟨hcs1, hw1⟩ := flagRegion_false (hf1.symm.trans hft)
      constructor <;> intros <;>
        simp_all [flagRegion, inCS, waiting, wrotePending, inBody, wcount] <;> omega
    · constructor <;> intros <;>
        simp_all [flagRegion, inCS, waiting, wrotePending, inBody, wcount] <;> omega
  case waitTurn =>
    simp only [step0, peterson_process_step, hpc, other0]
    rcases hturn : c.sh.turn with _ | m
    · have hcs1 : inCS c.th1.pc = false := by
        by_contra hcs
        have h1 := turn1 (by simpa using hcs) (by simp [hpc, waiting])
        omega
      constructor <;> intros <;>
        simp_all [flagRegion, inCS, waiting, wrotePending, inBody, wcount] <;> omega
    · have hm : m = 0 := by omega
      subst hm
      constructor <;> intros <;>
        simp_all [flagRegion, inCS, waiting, wrotePending, inBody, wcount] <;> omega
  case readCtr =>
    simp only [step0, peterson_process_step, hpc]
    constructor <;> intros <;>
      simp_all [flagRegion, inCS, waiting, wrotePending, inBody, wcount] <;> omega
  case incTemp =>
    simp only [step0, peterson_process_step, hpc]
    constructor <;> intros <;>
      simp_all [flagRegion, inCS, waiting, wrotePending, inBody, wcount] <;> omega
  case writeCtr =>
    have hcs1 : inCS c.th1.pc = false := by
      by_contra hcs
      exact mutex ⟨by simp [hpc, inCS], by simpa using hcs⟩
    have hne1 : c.th1.pc ≠ .incTemp := by
      intro hh; rw [hh] at hcs1; simp [inCS] at hcs1
    have hne2 : c.th1.pc ≠ .writeCtr := by
      intro hh; rw [hh] at hcs1; simp [inCS] at hcs1
    simp only [step0, peterson_process_step, hpc]
    constructor <;> intros <;>
      simp_all [flagRegion, inCS, waiting, wrotePending, inBody, wcount] <;> omega
  case clearFlag =>
    simp only [step0, peterson_process_step, hpc, id0]
    constructor <;> intros <;>
      simp_all [writeFlag, flagRegion, inCS, waiting, wrotePending, inBody, wcount] <;> omega
  case incI =>
    simp only [step0, peterson_process_step, hpc]
    constructor <;> intros <;>
      simp_all [flagRegion, inCS, waiting, wrotePending, inBody, wcount] <;> omega
  case done =>
    simp only [step0, peterson_process_step, hpc]
    constructor <;> intros <;>
      simp_all [flagRegion, inCS, waiting, wrotePending, inBody, wcount] <;> omega

set_option maxHeartbeats 4000000 in
/-- Thread 1 taking a step preserves the invariant. -/
theorem inv_step1 (n : Nat) (c : Config) (hInv : Inv n c) : Inv n (step1 n c) := by
  obtain ⟨id0, other0, id1, other1, hf0, hf1, turn01, mutex, turn0, turn1, hctr,
    t0r, t0i, t1r, t1i, ib0, iby0, idn0, ib1, iby1, idn1⟩ := hInv
  cases hpc : c.th1.pc
  case loopHead =>
    simp only [step1, peterson_process_step, hpc]
    split
    · constructor <;> intros <;>
        simp_all [flagRegion, inCS, waiting, wrotePending, inBody, wcount] <;> omega
    · constructor <;> intros <;>
        simp_all [flagRegion, inCS, waiting, wrotePending, inBody, wcount] <;> omega
  case setFlag =>
    simp only [step1, peterson_process_step, hpc, id1]
    constructor <;> intros <;>
      simp_all [writeFlag, flagRegion, inCS, waiting, wrotePending, inBody, wcount] <;> omega
  case setTurn =>
    simp only [step1, peterson_process_step, hpc, other1]
    constructor <;> intros <;>
      simp_all [flagRegion, inCS, waiting, wrotePending, inBody, wcount] <;> omega
  case waitFlag =>
    simp only [step1, peterson_process_step, hpc, other1, readFlag]
    rcases hft : c.sh.flag0 with _ | _
    · obtain ⟨hcs0, hw0⟩ := flagRegion_false (hf0.symm.trans hft)
      constructor <;> intros <;>
        simp_all [flagRegion, inCS, waiting, wrotePending, inBody, wcount] <;> omega
    · constructor <;> intros <;>
        simp_all [flagRegion, inCS, waiting, wrotePending, inBody, wcount] <;> omega
  case waitTurn =>
    simp only [step1, peterson_process_step, hpc, other1]
    rcases hturn : c.sh.turn with _ | m
    · constructor <;> intros <;>
        simp_all [flagRegion, inCS, waiting, wrotePending, inBody, wcount] <;> omega
    · have hm : m = 0 := by omega
      subst hm
      have hcs0 : inCS c.th0.pc = false := by
        by_contra hcs
        have h1 := turn0 (by simpa using hcs) (by simp [hpc, waiting])
        omega
      constructor <;> intros <;>
        simp_all [flagRegion, inCS, waiting, wrotePending, inBody, wcount] <;> omega
  case readCtr =>
    simp only [step1, peterson_process_step, hpc]
    constructor <;> intros <;>
      simp_all [flagRegion, inCS, waiting, wrotePending, inBody, wcount] <;> omega
  case incTemp =>
    simp only [step1, peterson_process_step, hpc]
    constructor <;> intros <;>
      simp_all [flagRegion, inCS, waiting, wrotePending, inBody, wcount] <;> omega
  case writeCtr =>
    have hcs0 : inCS c.th0.pc = false := by
      by_contra hcs
      exact mutex ⟨by simpa using hcs, by simp [hpc, inCS]⟩
    have hne1 : c.th0.pc ≠ .incTemp := by
      intro hh; rw [hh] at hcs0; simp [inCS] at hcs0
    have hne2 : c.th0.pc ≠ .writeCtr := by
      intro hh; rw [hh] at hcs0; simp [inCS] at hcs0
    simp only [step1, peterson_process_step, hpc]
    constructor <;> intros <;>
      simp_all [flagRegion, inCS, waiting, wrotePending, inBody, wcount] <;> omega
  case clearFlag =>
    simp only [step1, peterson_process_step, hpc, id1]
    constructor <;> intros <;>
      simp_all [writeFlag, flagRegion, inCS, waiting, wrotePending, inBody, wcount] <;> omega
  case incI =>
    simp only [step1, peterson_process_step, hpc]
    constructor <;> intros <;>
      simp_all [flagRegion, inCS, waiting, wrotePending, inBody, wcount] <;> omega
  case done =>
    simp only [step1, peterson_process_step, hpc]
    constructor <;> intros <;>
      simp_all [flagRegion, inCS, waiting, wrotePending, inBody, wcount] <;> omega

/-- Every reachable configuration of the protected program satisfies the
inductive invariant. -/
theorem reachable_inv {n : Nat} {c : Config} (h : Reachable n c) : Inv n c := by
  induction h with
  | refl => exact inv_init n
  | tail _ hstep ih =>
      rcases hstep with h0 | h1
      · rw [h0]; exact inv_step0 n _ ih
      · rw [h1]; exact inv_step1 n _ ih


/-- The terminated bound-0 run is reachable: thread 0 steps, then thread 1. -/
theorem doneConfig_reachable : Reachable 0 doneConfig :=
  Relation.ReflTransGen.tail
    (Relation.ReflTransGen.tail Relation.ReflTransGen.refl (Or.inl rfl))
    (Or.inr rfl)

/-- The configuration with thread 0 at its entry-wait loop is reachable by
three steps of thread 0. -/
theorem wait0Config_reachable : Reachable ITERATIONS wait0Config :=
  Relation.ReflTransGen.tail
    (Relation.ReflTransGen.tail
      (Relation.ReflTransGen.tail Relation.ReflTransGen.refl (Or.inl rfl))
      (Or.inl rfl))
    (Or.inl rfl)

end Peterson

namespace Racy

/-- The initial configuration satisfies the invariant. -/
theorem racy_inv_init (n : Nat) : Inv n init := by
  constructor <;> simp [init, wcount, pendingW, holdsTemp, inBody]

set_option maxHeartbeats 4000000 in
/-- Thread 0 taking a step preserves the invariant. -/
theorem racy_inv_step0 (n : Nat) (c : Config) (hInv : Inv n c) : Inv n (step0 n c) := by
  obtain ⟨hctr, t0a, t0b, t1a, t1b, ib0, iby0, ib1, iby1⟩ := hInv
  cases hpc : c.th0.pc
  case loopHead =>
    simp only [step0, increment_counter_step, hpc]
    split <;> constructor <;> intros <;>
      simp_all [pendingW, inBody, holdsTemp, wcount] <;> omega
  case readCtr =>
    simp only [step0, increment_counter_step, hpc]
    constructor <;> intros <;>
      simp_all [pendingW, inBody, holdsTemp, wcount] <;> omega
  case sleep =>
    simp only [step0, increment_counter_step, hpc]
    constructor <;> intros <;>
      simp_all [pendingW, inBody, holdsTemp, wcount] <;> omega
  case incTemp =>
    simp only [step0, increment_counter_step, hpc]
    constructor <;> intros <;>
      simp_all [pendingW, inBody, holdsTemp, wcount] <;> omega
  case writeCtr =>
    simp only [step0, increment_counter_step, hpc]
    have h0b := t0b hpc
    refine ⟨?_, ?_, ?_, ?_, ?_, ?_, ?_, ?_, ?_⟩
    · simp only [wcount, pendingW, hpc] at h0b ⊢
      simp at h0b ⊢
      omega
    · intro h; simp [holdsTemp] at h
    · intro h; simp at h
    · intro h
      have h1 := t1a h
      simp only [wcount, pendingW, hpc] at h1 ⊢
      simp at h1 ⊢
      omega
    · intro h
      have h1 := t1b h
      simp only [wcount, pendingW, hpc] at h1 ⊢
      simp at h1 ⊢
      omega
    · exact ib0
    · intro h
      apply iby0
      rw [hpc]
      rfl
    · exact ib1
    · exact iby1
  case incI =>
    simp only [step0, increment_counter_step, hpc]
    constructor <;> intros <;>
      simp_all [pendingW, inBody, holdsTemp, wcount] <;> omega
  case done =>
    simp only [step0, increment_counter_step, hpc]
    constructor <;> intros <;>
      simp_all [pendingW, inBody, holdsTemp, wcount] <;> omega

set_option maxHeartbeats 4000000 in
/-- Thread 1 taking a step preserves the invariant. -/
theorem racy_inv_step1 (n : Nat) (c : Config) (hInv : Inv n c) : Inv n (step1 n c) := by
  obtain ⟨hctr, t0a, t0b, t1a, t1b, ib0, iby0, ib1, iby1⟩ := hInv
  cases hpc : c.th1.pc
  case loopHead =>
    simp only [step1, increment_counter_step, hpc]
    split <;> constructor <;> intros <;>
      simp_all [pendingW, inBody, holdsTemp, wcount] <;> omega
  case readCtr =>
    simp only [step1, increment_counter_step, hpc]
    constructor <;> intros <;>
      simp_all [pendingW, inBody, holdsTemp, wcount] <;> omega
  case sleep =>
    simp only [step1, increment_counter_step, hpc]
    constructor <;> intros <;>
      simp_all [pendingW, inBody, holdsTemp, wcount] <;> omega
  case incTemp =>
    simp only [step1, increment_counter_step, hpc]
    constructor <;> intros <;>
      simp_all [pendingW, inBody, holdsTemp, wcount] <;> omega
  case writeCtr =>
    simp only [step1, increment_counter_step, hpc]
    have h1b := t1b hpc
    refine ⟨?_, ?_, ?_, ?_, ?_, ?_, ?_, ?_, ?_⟩
    · simp only [wcount, pendingW, hpc] at h1b ⊢
      simp at h1b ⊢
      omega
    · intro h
      have h1 := t0a h
      simp only [wcount, pendingW, hpc] at h1 ⊢
      simp at h1 ⊢
      omega
    · intro h
      have h1 := t0b h
      simp only [wcount, pendingW, hpc] at h1 ⊢
      simp at h1 ⊢
      omega
    · intro h; simp [holdsTemp] at h
    · intro h; simp at h
    · exact ib0
    · exact iby0
    · exact ib1
    · intro h
      apply iby1
      rw [hpc]
      rfl
  case incI =>
    simp only [step1, increment_counter_step, hpc]
    constructor <;> intros <;>
      simp_all [pendingW, inBody, holdsTemp, wcount] <;> omega
  case done =>
    simp only [step1, increment_counter_step, hpc]
    constructor <;> intros <;>
      simp_all [pendingW, inBody, holdsTemp, wcount] <;> omega

/-- Every reachable configuration of the unsynchronized program satisfies
the inductive invariant. -/
theorem racy_reachable_inv {n : Nat} {c : Config} (h : Reachable n c) : Inv n c := by
  induction h with
  | refl => exact racy_inv_init n
  | tail _ hstep ih =>
      rcases hstep with h0 | h1
      · rw [h0]; exact racy_inv_step0 n _ ih
      · rw [h1]; exact racy_inv_step1 n _ ih


/-- A thread that respects the loop bounds has performed at most `n / 2`
writes. -/
theorem wcount_le_half (n : Nat) (t : TState) (hle : t.i ≤ n / 2)
    (hbody : inBody t.pc = true → t.i < n / 2) : wcount t ≤ n / 2 := by
  cases hpc : t.pc <;> simp_all [wcount, pendingW, inBody] <;> omega

end Racy

/-- Claim C1: for the protected (Peterson) program, at every instant of
every execution at most one participant is inside the critical section:
no reachable configuration has `flag[0] == true`, `flag[1] == true`, and
both participants simultaneously past their entry-wait conditions. -/
theorem C1_mutual_exclusion (n : Nat) (c : Peterson.Config)
    (h : Peterson.Reachable n c) :
    ¬(c.sh.flag0 = true ∧ c.sh.flag1 = true ∧
      Peterson.inCS c.th0.pc = true ∧ Peterson.inCS c.th1.pc = true) := by
  have hInv := Peterson.reachable_inv h
  rintro ⟨-, -, h0, h1⟩
  exact hInv.mutex ⟨h0, h1⟩

/-- Witness for C1, at the initial configuration. -/
theorem C1_mutual_exclusion_witness :
    ¬(Peterson.init.sh.flag0 = true ∧ Peterson.init.sh.flag1 = true ∧
      Peterson.inCS Peterson.init.th0.pc = true ∧
      Peterson.inCS Peterson.init.th1.pc = true) :=
  C1_mutual_exclusion Peterson.ITERATIONS Peterson.init Relation.ReflTransGen.refl

/-- Claim C2: for every interleaved execution of the protected program
with iteration bound `n` (`n` even), once both participant threads have
terminated (been joined) the shared counter equals exactly `n`; the
configured bound is `ITERATIONS = 100000`, each of the two participants
performing `50000` protected increments. -/
theorem C2_protected_final_counter :
    (∀ (n : Nat) (c : Peterson.Config), n % 2 = 0 → Peterson.Reachable n c →
      c.th0.pc = Peterson.PC.done → c.th1.pc = Peterson.PC.done →
      c.sh.counter = n) ∧
    Peterson.ITERATIONS = 100000 ∧ Peterson.ITERATIONS / 2 = 50000 := by
  refine ⟨?_, rfl, rfl⟩
  intro n c hev h hd0 hd1
  have hInv := Peterson.reachable_inv h
  have h0 := hInv.idone0 hd0
  have h1 := hInv.idone1 hd1
  have hctr := hInv.ctr
  simp only [Peterson.wcount, hd0, hd1, h0, h1] at hctr
  simp [Peterson.wrotePending] at hctr
  omega

/-- Witness for C2: the terminated bound-0 run has counter 0. -/
theorem C2_protected_final_counter_witness :
    Peterson.doneConfig.sh.counter = 0 :=
  C2_protected_final_counter.1 0 Peterson.doneConfig rfl
    Peterson.doneConfig_reachable (by decide) (by decide)

/-- Claim C3: the entry section of `peterson_process` performs exactly, in
this order: the store `flag[selfId] = true`, then the store
`turn = otherId`, then the busy-wait loop that spins (two seq-cst loads
per round, no blocking primitive, no shared-state writes) while
`flag[otherId] == true` and `turn == otherId`. -/
theorem C3_entry_order (n : Nat) (sh : Peterson.Shared) (id other i temp : Nat) :
    (Peterson.peterson_process_step n sh ⟨id, other, .setFlag, i, temp⟩ =
      (Peterson.writeFlag sh id true, ⟨id, other, .setTurn, i, temp⟩)) ∧
    (Peterson.peterson_process_step n sh ⟨id, other, .setTurn, i, temp⟩ =
      ({ sh with turn := other }, ⟨id, other, .waitFlag, i, temp⟩)) ∧
    (Peterson.peterson_process_step n sh ⟨id, other, .waitFlag, i, temp⟩ =
      (sh, ⟨id, other,
        if Peterson.readFlag sh other then .waitTurn else .readCtr, i, temp⟩)) ∧
    (Peterson.peterson_process_step n sh ⟨id, other, .waitTurn, i, temp⟩ =
      (sh, ⟨id, other,
        if sh.turn = other then .waitFlag else .readCtr, i, temp⟩)) := by
  refine ⟨rfl, rfl, ?_, ?_⟩ <;>
    · simp only [Peterson.peterson_process_step]
      split <;> rfl

/-- Claim C4: whenever `enter(selfId)` returns — a waiting participant
leaves its entry-wait loop and reaches the critical section — the state
at that instant satisfies `flag[otherId] == false` or `turn == selfId`. -/
theorem C4_enter_postcondition (n : Nat) (c : Peterson.Config)
    (h : Peterson.Reachable n c) :
    (Peterson.waiting c.th0.pc = true →
      (Peterson.step0 n c).th0.pc = Peterson.PC.readCtr →
      Peterson.readFlag (Peterson.step0 n c).sh c.th0.other = false ∨
        (Peterson.step0 n c).sh.turn = c.th0.id) ∧
    (Peterson.waiting c.th1.pc = true →
      (Peterson.step1 n c).th1.pc = Peterson.PC.readCtr →
      Peterson.readFlag (Peterson.step1 n c).sh c.th1.other = false ∨
        (Peterson.step1 n c).sh.turn = c.th1.id) := by
  have hInv := Peterson.reachable_inv h
  constructor
  · intro hw hexit
    cases hpc : c.th0.pc <;> rw [hpc] at hw <;> simp [Peterson.waiting] at hw
    · -- at the flag load
      simp only [Peterson.step0, Peterson.peterson_process_step, hpc] at hexit ⊢
      rcases hft : Peterson.readFlag c.sh c.th0.other with _ | _
      · exact Or.inl (by simp [hft])
      · rw [hft] at hexit
        simp at hexit
    · -- at the turn load
      simp only [Peterson.step0, Peterson.peterson_process_step, hpc] at hexit ⊢
      by_cases hft : c.sh.turn = c.th0.other
      · rw [if_pos hft] at hexit
        simp at hexit
      · rw [if_neg hft] at hexit ⊢
        dsimp only at hexit ⊢
        refine Or.inr ?_
        have h01 := hInv.turn01
        rw [hInv.id0]
        rw [hInv.other0] at hft
        omega
  · intro hw hexit
    cases hpc : c.th1.pc <;> rw [hpc] at hw <;> simp [Peterson.waiting] at hw
    · simp only [Peterson.step1, Peterson.peterson_process_step, hpc] at hexit ⊢
      rcases hft : Peterson.readFlag c.sh c.th1.other with _ | _
      · exact Or.inl (by simp [hft])
      · rw [hft] at hexit
        simp at hexit
    · simp only [Peterson.step1, Peterson.peterson_process_step, hpc] at hexit ⊢
      by_cases hft : c.sh.turn = c.th1.other
      · rw [if_pos hft] at hexit
        simp at hexit
      · rw [if_neg hft] at hexit ⊢
        dsimp only at hexit ⊢
        refine Or.inr ?_
        have h01 := hInv.turn01
        rw [hInv.id1]
        rw [hInv.other1] at hft
        omega

/-- Witness for C4: from the start, three steps of thread 0 reach its
entry-wait; the wait exits at once (the other flag is down) and the
postcondition holds there. -/
theorem C4_enter_postcondition_witness :
    Peterson.readFlag
        (Peterson.step0 Peterson.ITERATIONS Peterson.wait0Config).sh
        Peterson.wait0Config.th0.other = false ∨
      (Peterson.step0 Peterson.ITERATIONS Peterson.wait0Config).sh.turn =
        Peterson.wait0Config.th0.id :=
  (C4_enter_postcondition Peterson.ITERATIONS Peterson.wait0Config
      Peterson.wait0Config_reachable).1 (by decide) (by decide)

/-- Claim C5: the shared `turn` always holds a value in {0, 1}: its
initial value is 0 and every reachable configuration (hence every store,
which writes `1 - selfId` for `selfId` in {0,1}) keeps it in {0, 1}. -/
theorem C5_turn_range :
    Peterson.init.sh.turn = 0 ∧
    (∀ (n : Nat) (c : Peterson.Config), Peterson.Reachable n c →
      c.sh.turn = 0 ∨ c.sh.turn = 1) :=
  ⟨rfl, fun _ _ h => (Peterson.reachable_inv h).turn01⟩

/-- Witness for C5, at the initial configuration. -/
theorem C5_turn_range_witness :
    Peterson.init.sh.turn = 0 ∨ Peterson.init.sh.turn = 1 :=
  C5_turn_range.2 Peterson.ITERATIONS Peterson.init Relation.ReflTransGen.refl

/-- Claim C6: the exit operation stores `flag[selfId] = false` and
modifies nothing else of the shared state: the other flag, `turn` and the
shared counter are unchanged, for either participant. -/
theorem C6_exit_frame (n : Nat) (sh : Peterson.Shared) (i temp : Nat) :
    (Peterson.peterson_process_step n sh ⟨0, 1, .clearFlag, i, temp⟩ =
      (Peterson.writeFlag sh 0 false, ⟨0, 1, .incI, i, temp⟩)) ∧
    (Peterson.peterson_process_step n sh ⟨1, 0, .clearFlag, i, temp⟩ =
      (Peterson.writeFlag sh 1 false, ⟨1, 0, .incI, i, temp⟩)) ∧
    (Peterson.writeFlag sh 0 false).flag0 = false ∧
    (Peterson.writeFlag sh 0 false).flag1 = sh.flag1 ∧
    (Peterson.writeFlag sh 0 false).turn = sh.turn ∧
    (Peterson.writeFlag sh 0 false).counter = sh.counter ∧
    (Peterson.writeFlag sh 1 false).flag1 = false ∧
    (Peterson.writeFlag sh 1 false).flag0 = sh.flag0 ∧
    (Peterson.writeFlag sh 1 false).turn = sh.turn ∧
    (Peterson.writeFlag sh 1 false).counter = sh.counter := by
  refine ⟨rfl, rfl, ?_, ?_, ?_, ?_, ?_, ?_, ?_, ?_⟩ <;> simp [Peterson.writeFlag]

/-- Claim C7: in every interleaved execution of the unsynchronized
baseline with iteration bound `n`, the shared counter never exceeds `n`:
every reachable configuration — in particular the final one read after
both joins — has `counter ≤ n`. -/
theorem C7_racy_counter_le (n : Nat) (c : Racy.Config)
    (h : Racy.Reachable n c) : c.counter ≤ n := by
  have hInv := Racy.racy_reachable_inv h
  have h0 := Racy.wcount_le_half n c.th0 hInv.ib0 hInv.iby0
  have h1 := Racy.wcount_le_half n c.th1 hInv.ib1 hInv.iby1
  have hc := hInv.ctr
  omega

/-- Witness for C7, at the initial configuration. -/
theorem C7_racy_counter_le_witness : Racy.init.counter ≤ Racy.ITERATIONS :=
  C7_racy_counter_le Racy.ITERATIONS Racy.init Relation.ReflTransGen.refl

/-- Claim C8: the protected run prints the success verdict iff the final
counter equals `ITERATIONS` (any other value is reported as unexpected,
with the value), and the baseline run reports `expected - actual` lost
updates when the final counter is below `ITERATIONS` and otherwise (equal)
that no race was observed this run. -/
theorem C8_verdicts :
    (∀ ctr : Nat, Peterson.mainVerdict ctr =
        Peterson.Verdict.mutualExclusionGuaranteed ↔ ctr = Peterson.ITERATIONS) ∧
    (∀ ctr : Nat, ctr ≠ Peterson.ITERATIONS →
      Peterson.mainVerdict ctr = Peterson.Verdict.unexpectedResult ctr) ∧
    (∀ ctr : Nat, ctr < Racy.ITERATIONS →
      Racy.mainVerdict ctr = Racy.Verdict.raceDetected (Racy.ITERATIONS - ctr)) ∧
    (∀ ctr : Nat, ctr = Racy.ITERATIONS →
      Racy.mainVerdict ctr = Racy.Verdict.noRaceThisRun) := by
  refine ⟨?_, ?_, ?_, ?_⟩ <;> intro ctr <;>
    simp only [Peterson.mainVerdict, Racy.mainVerdict]
  · constructor
    · intro hv
      by_contra hne
      rw [if_neg hne] at hv
      exact Peterson.Verdict.noConfusion hv
    · intro he
      rw [if_pos he]
  · intro hne
    rw [if_neg hne]
  · intro hlt
    rw [if_pos hlt]
  · intro he
    rw [if_neg (by omega)]

/-- Witness for C8, at concrete final-counter values 100000, 7, 99999. -/
theorem C8_verdicts_witness :
    Peterson.mainVerdict 100000 = Peterson.Verdict.mutualExclusionGuaranteed ∧
    Peterson.mainVerdict 7 = Peterson.Verdict.unexpectedResult 7 ∧
    Racy.mainVerdict 99999 = Racy.Verdict.raceDetected (Racy.ITERATIONS - 99999) ∧
    Racy.mainVerdict 100000 = Racy.Verdict.noRaceThisRun :=
  ⟨(C8_verdicts.1 100000).2 (by decide), C8_verdicts.2.1 7 (by decide),
    C8_verdicts.2.2.1 99999 (by decide), C8_verdicts.2.2.2 100000 (by decide)⟩

/-- Claim C9: the single constant `ITERATIONS` (= 100000 in both
programs) determines the workload: it is even, `2 * (ITERATIONS / 2)`
equals `ITERATIONS` exactly under integer division, and each participant
that has terminated performed exactly `n / 2` loop iterations, so the two
together attempted `n` increments. -/
theorem C9_iterations_workload :
    Peterson.ITERATIONS = 100000 ∧ Racy.ITERATIONS = 100000 ∧
    Peterson.ITERATIONS % 2 = 0 ∧
    2 * (Peterson.ITERATIONS / 2) = Peterson.ITERATIONS ∧
    (∀ (n : Nat) (c : Peterson.Config), Peterson.Reachable n c →
      (c.th0.pc = Peterson.PC.done → c.th0.i = n / 2) ∧
      (c.th1.pc = Peterson.PC.done → c.th1.i = n / 2)) :=
  ⟨rfl, rfl, rfl, rfl, fun _ _ h =>
    ⟨(Peterson.reachable_inv h).idone0, (Peterson.reachable_inv h).idone1⟩⟩

/-- Witness for C9: in the terminated bound-0 run each thread performed
0 = 0 / 2 iterations. -/
theorem C9_iterations_workload_witness :
    Peterson.doneConfig.th0.i = 0 / 2 ∧ Peterson.doneConfig.th1.i = 0 / 2 :=
  ⟨(C9_iterations_workload.2.2.2.2 0 Peterson.doneConfig
      Peterson.doneConfig_reachable).1 (by decide),
   (C9_iterations_workload.2.2.2.2 0 Peterson.doneConfig
      Peterson.doneConfig_reachable).2 (by decide)⟩

/-- Claim C10: the protected harness spawns exactly the two participant
threads of `Config`, with the distinct ids 0 and 1, and joins both before
the final counter read: once both threads are done no further step of
either thread changes the configuration, so the value read after the
joins is final. -/
theorem C10_harness_contract :
    Peterson.init.th0.id = 0 ∧ Peterson.init.th1.id = 1 ∧
    Peterson.init.th0.id ≠ Peterson.init.th1.id ∧
    (∀ (n : Nat) (c : Peterson.Config),
      c.th0.pc = Peterson.PC.done → c.th1.pc = Peterson.PC.done →
      Peterson.step0 n c = c ∧ Peterson.step1 n c = c) := by
  refine ⟨rfl, rfl, by decide, ?_⟩
  intro n c h0 h1
  constructor <;>
    simp [Peterson.step0, Peterson.step1, Peterson.peterson_process_step, h0, h1]

/-- Witness for C10: in the terminated bound-0 run both threads are done
and the configuration is quiescent. -/
theorem C10_harness_contract_witness :
    Peterson.step0 0 Peterson.doneConfig = Peterson.doneConfig ∧
    Peterson.step1 0 Peterson.doneConfig = Peterson.doneConfig :=
  C10_harness_contract.2.2.2 0 Peterson.doneConfig (by decide) (by decide)
